import Mathlib

/-!
# Verification of the min-s3-viewer server against its specification

This file gives a shallow embedding, in Lean 4, of the request-handling
logic of `server.js` from the min-s3-viewer repository, and proves (or
refutes) the specification claims about it.

Modelling conventions:
* JavaScript strings are modelled by Lean `String` / `List Char`.  (JS
  indexes strings by UTF-16 code units; for the ASCII delimiters used by
  the server the two views agree.)
* `str.split("/")` is modelled by the char-level function `splitSlash`,
  and `Array.prototype.join("/")` by `joinSlash`; both follow the exact
  JS semantics for a one-character separator.
* The AWS SDK client is modelled as a record of oracle functions
  (`S3Model`): each remote command either returns its (already parsed)
  result or throws an `S3Error`.  Fields of SDK results that may be
  `undefined` are modelled with `Option`.
* JS truthiness tests on `string | undefined` values (`head.ContentType ||
  ...`, `if (head.CacheControl) ...`) are modelled by `jsTruthy`: an
  absent value and the empty string are both falsy.
* The floating-point computation `Math.floor(Math.log(bytes) /
  Math.log(1024))` is modelled by the exact `Nat.log 1024`, and
  `Math.round` by exact round-half-up on rationals scaled to hundredths;
  IEEE double rounding is not modelled (checked to agree at the unit
  boundaries relevant to the claims).
-/

/-! ## Char-level split and join (JS `split("/")` / `join("/")`) -/

/-- `splitSlash cs` is JS `String.prototype.split("/")` on the character
list `cs`: the (possibly empty) chunks between `'/'` occurrences. -/
def splitSlash : List Char → List (List Char)
  | [] => [[]]
  | c :: cs =>
    let r := splitSlash cs
    if c = '/' then [] :: r
    else (c :: r.headD []) :: r.tail

/-- `joinSlash` is JS `Array.prototype.join("/")`. -/
def joinSlash : List (List Char) → List Char
  | [] => []
  | [s] => s
  | s :: ss => s ++ '/' :: joinSlash ss

/-- The segments of a path: split on `'/'`, then drop empty chunks
(JS `.split("/").filter(Boolean)`). -/
def segsL (cs : List Char) : List (List Char) :=
  (splitSlash cs).filter (fun s => !s.isEmpty)

theorem splitSlash_ne_nil (cs : List Char) : splitSlash cs ≠ [] := by
  cases cs with
  | nil => simp [splitSlash]
  | cons c cs => by_cases h : c = '/' <;> simp [splitSlash, h]

theorem splitSlash_append_slash (xs ys : List Char) :
    splitSlash (xs ++ '/' :: ys) = splitSlash xs ++ splitSlash ys := by
  induction xs with
  | nil =>
    simp [splitSlash]
  | cons c xs ih =>
    by_cases h : c = '/'
    · simp [splitSlash, h, ih]
    · obtain ⟨a, as, ha⟩ := List.exists_cons_of_ne_nil (splitSlash_ne_nil xs)
      simp [splitSlash, h, ih, ha]

theorem segsL_append_slash (xs ys : List Char) :
    segsL (xs ++ '/' :: ys) = segsL xs ++ segsL ys := by
  simp [segsL, splitSlash_append_slash, List.filter_append]

theorem segsL_cons_slash (cs : List Char) : segsL ('/' :: cs) = segsL cs := by
  simp [segsL, splitSlash]

theorem segsL_nil : segsL [] = [] := rfl

theorem segsL_append_slash_nil (xs : List Char) : segsL (xs ++ ['/']) = segsL xs := by
  have h := segsL_append_slash xs []
  simpa [segsL_nil] using h

theorem segsL_dropWhile_slash (cs : List Char) :
    segsL (cs.dropWhile (fun c => c = '/')) = segsL cs := by
  induction cs with
  | nil => rfl
  | cons c cs ih =>
    by_cases h : c = '/'
    · rw [h]
      rw [segsL_cons_slash]
      rw [← ih]
      simp [List.dropWhile]
    · simp [List.dropWhile, h]

theorem not_slash_of_mem_splitSlash {cs : List Char} {s : List Char}
    (hs : s ∈ splitSlash cs) : '/' ∉ s := by
  induction cs generalizing s with
  | nil =>
    simp [splitSlash] at hs
    simp [hs]
  | cons c cs ih =>
    by_cases h : c = '/'
    · simp [splitSlash, h] at hs
      rcases hs with hs | hs
      · simp [hs]
      · exact ih hs
    · obtain ⟨a, as, ha⟩ := List.exists_cons_of_ne_nil (splitSlash_ne_nil cs)
      simp [splitSlash, h, ha] at hs
      rcases hs with hs | hs
      · have hmem : a ∈ splitSlash cs := by simp [ha]
        have := ih hmem
        simp [hs, h]
        exact ⟨fun hc => h hc.symm, this⟩
      · exact ih (by simp [ha, hs])

theorem splitSlash_of_not_slash {cs : List Char} (h : '/' ∉ cs) :
    splitSlash cs = [cs] := by
  induction cs with
  | nil => rfl
  | cons c cs ih =>
    simp at h
    simp [splitSlash, Ne.symm h.1, ih h.2]

theorem segsL_of_not_slash {cs : List Char} (hne : cs ≠ []) (h : '/' ∉ cs) :
    segsL cs = [cs] := by
  simp [segsL, splitSlash_of_not_slash h, hne]

theorem segsL_joinSlash {ls : List (List Char)}
    (h : ∀ s ∈ ls, s ≠ [] ∧ '/' ∉ s) : segsL (joinSlash ls) = ls := by
  induction ls with
  | nil => rfl
  | cons s ss ih =>
    cases ss with
    | nil =>
      have hs := h s (by simp)
      simpa [joinSlash] using segsL_of_not_slash hs.1 hs.2
    | cons t ts =>
      have hs := h s (by simp)
      have hrest : ∀ u ∈ t :: ts, u ≠ [] ∧ '/' ∉ u := fun u hu => h u (by simp [hu])
      have : joinSlash (s :: t :: ts) = s ++ '/' :: joinSlash (t :: ts) := rfl
      rw [this, segsL_append_slash, segsL_of_not_slash hs.1 hs.2, ih hrest]
      rfl

theorem mem_segsL {cs s : List Char} (hs : s ∈ segsL cs) : s ≠ [] ∧ '/' ∉ s := by
  have h1 : s ∈ splitSlash cs := List.mem_of_mem_filter hs
  have h2 := List.of_mem_filter hs
  simp at h2
  exact ⟨by simpa using h2, not_slash_of_mem_splitSlash h1⟩

/-! ## `parseBucketAndKey` (server.js lines 11–19) -/

/-- Result shape of `parseBucketAndKey`: `{ bucket, key }`, each possibly
`null`. -/
structure ParseResult where
  bucket : Option String
  key : Option String
deriving DecidableEq, Repr

/-- Embedding of `parseBucketAndKey(reqPath)`:
`reqPath.replace(/^\/+/, "")`, then `.split("/").filter(Boolean)`;
fewer than one part gives `{bucket: null, key: null}`, otherwise the first
part is the bucket and the rest are rejoined with `"/"` as the key. -/
def parseBucketAndKey (reqPath : String) : ParseResult :=
  let p := reqPath.data.dropWhile (fun c => c = '/')
  match segsL p with
  | [] => ⟨none, none⟩
  | b :: rest => ⟨some (String.mk b), some (String.mk (joinSlash rest))⟩

/-- `parseBucketAndKey` as a function of the slash-separated segments of
the raw path (leading-slash stripping is redundant after empty segments
are discarded). -/
def parseOfSegs (cs : List Char) : ParseResult :=
  match segsL cs with
  | [] => ⟨none, none⟩
  | b :: rest => ⟨some (String.mk b), some (String.mk (joinSlash rest))⟩

theorem parseBucketAndKey_eq_parseOfSegs (p : String) :
    parseBucketAndKey p = parseOfSegs p.data := by
  unfold parseBucketAndKey parseOfSegs
  simp only [segsL_dropWhile_slash]

/-! ## JS string helpers used by the handlers -/

/-- JS `s.endsWith(t)`. -/
def jsEndsWith (s t : String) : Bool :=
  List.isSuffixOf t.data s.data

/-- JS truthiness of a `string | undefined` value: `undefined` and `""`
are falsy. -/
def jsTruthy : Option String → Bool
  | none => false
  | some s => !(s = "")

/-- JS `a || dflt` on a `string | undefined | false` value `a`. -/
def jsOrStr (a : Option String) (dflt : String) : String :=
  match a with
  | some s => if s = "" then dflt else s
  | none => dflt

/-- JS `s.replace(/\/$/, "")`: remove one trailing slash if present. -/
def stripOneTrailingSlash (s : String) : String :=
  if jsEndsWith s "/" then s.dropRight 1 else s

/-- JS `s.slice(n)` (for our ASCII-delimited uses, `n` counts chars). -/
def jsSlice (s : String) (n : Nat) : String :=
  ⟨s.data.drop n⟩

/-- JS `s.split("/")` lifted to `String`. -/
def strSplitSlash (s : String) : List String :=
  (splitSlash s.data).map (fun l => ⟨l⟩)

/-- JS `s.split("/").filter(Boolean)` lifted to `String`. -/
def strSegs (s : String) : List String :=
  (segsL s.data).map (fun l => ⟨l⟩)

/-! ## `formatBytes` (server.js lines 106–112) -/

/-- Exact model of `Math.round(bytes / Math.pow(1024, i) * 100)`: round
half-up of `bytes * 100 / p` where `p = 1024 ^ i`, computed as a natural
number. -/
def jsRound100 (bytes p : Nat) : Nat :=
  (200 * bytes + p) / (2 * p)

/-- Renders the decimal `n / 100` the way JS prints the corresponding
number: no trailing zero decimals (`100 ↦ "1"`, `150 ↦ "1.5"`,
`107 ↦ "1.07"`). -/
def renderHundredths (n : Nat) : String :=
  let w := n / 100
  let r := n % 100
  if r = 0 then toString w
  else if r % 10 = 0 then toString w ++ "." ++ toString (r / 10)
  else if r < 10 then toString w ++ ".0" ++ toString r
  else toString w ++ "." ++ toString r

/-- The `sizes` array of `formatBytes`; JS indexing past the end yields
`undefined`, which stringifies as `"undefined"`. -/
def sizesArr : List String := ["B", "KB", "MB", "GB"]

/-- Embedding of `formatBytes(bytes)`: `0` is special-cased, otherwise
`i = Math.floor(Math.log(bytes) / Math.log(1024))` (exactly
`Nat.log 1024 bytes`), and the result is
`Math.round(bytes / 1024 ** i * 100) / 100 + " " + sizes[i]`. -/
def formatBytes (bytes : Nat) : String :=
  if bytes = 0 then "0 B"
  else
    let i := Nat.log 1024 bytes
    renderHundredths (jsRound100 bytes (1024 ^ i)) ++ " " ++ sizesArr.getD i "undefined"

/-! ## Data model of the storage gateway (AWS SDK results, server.js lines 2, 9, 21–33) -/

/-- An error thrown by an SDK `send`: the handler inspects
`err?.$metadata?.httpStatusCode` and `err?.name`. -/
structure S3Error where
  httpStatusCode : Option Nat
  name : Option String
deriving DecidableEq, Repr

/-- The not-found test of the inner catch (server.js line 198):
`status === 404 || err?.name === "NotFound" || err?.name === "NoSuchKey"`. -/
def isNotFoundErr (e : S3Error) : Bool :=
  e.httpStatusCode = some 404 || e.name = some "NotFound" || e.name = some "NoSuchKey"

/-- `HeadObject` result fields the handler reads (`ContentType`,
`CacheControl`, `ETag`); each may be `undefined`. -/
structure HeadResult where
  contentType : Option String
  cacheControl : Option String
  etag : Option String
deriving DecidableEq, Repr

/-- One entry of `result.CommonPrefixes`; the field `pfx` models its
`Prefix` property. -/
structure FolderEntry where
  pfx : String
deriving DecidableEq, Repr

/-- One entry of `result.Contents` (`Key`, `Size`). -/
structure FileEntry where
  Key : String
  Size : Nat
deriving DecidableEq, Repr

/-- Raw `ListObjectsV2` result: `CommonPrefixes` and `Contents` may each
be `undefined`. -/
structure ListRaw where
  commonPrefixes : Option (List FolderEntry)
  contents : Option (List FileEntry)
deriving DecidableEq, Repr

/-- One entry of `result.Buckets`; `CreationDate`, when present, is
modelled by its `toISOString()` rendering. -/
structure BucketEntry where
  Name : String
  CreationDate : Option String
deriving DecidableEq, Repr

/-- The remote S3 service together with the `mime-types` lookup table,
as oracles: each SDK `send` either returns a parsed result or throws an
`S3Error`.  `listObjectsV2 bucket pfx` stands for
`ListObjectsV2Command {Bucket, Prefix, Delimiter: "/"}`. -/
structure S3Model where
  listBucketsRaw : Except S3Error (Option (List BucketEntry))
  listObjectsV2 : String → String → Except S3Error ListRaw
  headObject : String → String → Except S3Error HeadResult
  getObject : String → String → Except S3Error Unit
  mimeLookup : String → Option String

/-- Embedding of `listS3Objects(bucket, prefix)` (server.js lines 21–33):
returns `{folders: result.CommonPrefixes || [], files: result.Contents || []}`,
propagating a thrown error. -/
def listS3Objects (m : S3Model) (bucket pfx : String) :
    Except S3Error (List FolderEntry × List FileEntry) :=
  match m.listObjectsV2 bucket pfx with
  | .error e => .error e
  | .ok r => .ok (r.commonPrefixes.getD [], r.contents.getD [])

/-! ## HTTP responses -/

/-- Body of a finished response: `send` of a string, or the piped object
byte stream. -/
inductive RespBody where
  | empty
  | text (s : String)
  | objectStream
deriving DecidableEq, Repr

/-- The express response as the handler leaves it: status (express
default 200), the three headers the code ever sets, and the body. -/
structure Response where
  status : Nat
  contentType : Option String
  cacheControl : Option String
  etag : Option String
  body : RespBody
deriving DecidableEq, Repr

/-- A fresh response: status 200, no headers, no body. -/
def emptyResponse : Response :=
  { status := 200, contentType := none, cacheControl := none, etag := none, body := .empty }

/-- What one request produces: the response sent to the client, plus the
error logged via `console.error`, if any. -/
structure HandlerResult where
  resp : Response
  logged : Option S3Error
deriving DecidableEq, Repr

/-! ## `generateIndexHtml` (server.js lines 35–104) -/

/-- One step of the breadcrumb loop: extend `currentPath` by `/part` and
push the link for `part`. -/
def breadcrumbStep (acc : String × List String) (part : String) : String × List String :=
  let cur := acc.1 ++ "/" ++ part
  (cur, acc.2 ++ ["<a href=\"" ++ cur ++ "\">" ++ part ++ "</a>"])

/-- The parent-directory link target:
`reqPath.replace(/\/$/, "").split("/").slice(0, -1).join("/") || "/" + bucket`. -/
def parentPath (bucket reqPath : String) : String :=
  let joined := String.intercalate "/" ((strSplitSlash (stripOneTrailingSlash reqPath)).dropLast)
  if joined = "" then "/" ++ bucket else joined

/-- Row for one `CommonPrefixes` entry: display name is the full entry
with the current path-prefix stripped and one trailing slash removed. -/
def folderRow (bucket pfx : String) (folder : FolderEntry) : String :=
  let folderName := stripOneTrailingSlash (jsSlice folder.pfx pfx.length)
  let folderPath := "/" ++ bucket ++ "/" ++ folder.pfx
  "<tr><td><a href=\"" ++ folderPath ++ "\">📁 " ++ folderName ++ "/</a></td><td>-</td></tr>"

/-- Row for one `Contents` entry, or `none` when the stripped name is
empty (the listed marker object for the path-prefix itself is skipped). -/
def fileRow (bucket pfx : String) (file : FileEntry) : Option String :=
  let fileName := jsSlice file.Key pfx.length
  if fileName = "" then none
  else
    let filePath := "/" ++ bucket ++ "/" ++ file.Key
    some ("<tr><td><a href=\"" ++ filePath ++ "\">📄 " ++ fileName ++ "</a></td><td>"
      ++ formatBytes file.Size ++ "</td></tr>")

/-- All table rows of a listing page: parent link (when the path-prefix
is non-empty), then folders, then files. -/
def indexRows (bucket pfx : String) (folders : List FolderEntry) (files : List FileEntry)
    (reqPath : String) : List String :=
  (if pfx = "" then []
   else ["<tr><td><a href=\"" ++ parentPath bucket reqPath ++ "\">📁 ..</a></td><td>-</td></tr>"])
  ++ folders.map (folderRow bucket pfx)
  ++ files.filterMap (fileRow bucket pfx)

/-- Embedding of `generateIndexHtml(bucket, prefix, folders, files, reqPath)`
(the `pfx` argument models the `prefix` parameter).  Literal braces of
the CSS are written `\x7b` / `\x7d`. -/
def generateIndexHtml (bucket pfx : String) (folders : List FolderEntry)
    (files : List FileEntry) (reqPath : String) : String :=
  let pathParts := if pfx = "" then [] else strSegs pfx
  let start : String × List String :=
    ("/" ++ bucket, ["<a href=\"" ++ "/" ++ bucket ++ "\">" ++ bucket ++ "</a>"])
  let breadcrumbs := (pathParts.foldl breadcrumbStep start).2
  let rows := indexRows bucket pfx folders files reqPath
  "<!DOCTYPE html>\n<html>\n<head>\n  <meta charset=\"UTF-8\">\n  <meta name=\"viewport\" content=\"width=device-width, initial-scale=1.0\">\n  <title>Index of "
  ++ reqPath
  ++ "</title>\n  <style>\n    body \x7b font-family: system-ui, -apple-system, sans-serif; margin: 2rem; \x7d\n    h1 \x7b font-size: 1.5rem; margin-bottom: 0.5rem; \x7d\n    .breadcrumbs \x7b color: #666; margin-bottom: 1.5rem; \x7d\n    .breadcrumbs a \x7b color: #0066cc; text-decoration: none; \x7d\n    .breadcrumbs a:hover \x7b text-decoration: underline; \x7d\n    table \x7b border-collapse: collapse; width: 100%; max-width: 900px; \x7d\n    th \x7b text-align: left; padding: 0.5rem; border-bottom: 2px solid #ddd; background: #f5f5f5; \x7d\n    td \x7b padding: 0.5rem; border-bottom: 1px solid #eee; \x7d\n    td:first-child \x7b width: 70%; \x7d\n    td:last-child \x7b text-align: right; color: #666; \x7d\n    a \x7b color: #0066cc; text-decoration: none; \x7d\n    a:hover \x7b text-decoration: underline; \x7d\n  </style>\n</head>\n<body>\n  <h1>Index of "
  ++ reqPath
  ++ "</h1>\n  <div class=\"breadcrumbs\">"
  ++ String.intercalate " / " breadcrumbs
  ++ "</div>\n  <table>\n    <thead>\n      <tr><th>Name</th><th>Size</th></tr>\n    </thead>\n    <tbody>\n      "
  ++ String.intercalate "\n      " rows
  ++ "\n    </tbody>\n  </table>\n</body>\n</html>"

/-! ## The root route `app.get("/")` (server.js lines 114–162) -/

/-- One row of the buckets page: link plus the date part of
`CreationDate.toISOString()` (`'-'` when absent). -/
def bucketRow (b : BucketEntry) : String :=
  let creationDate := match b.CreationDate with
    | some d => ⟨d.data.takeWhile (fun c => c ≠ 'T')⟩
    | none => "-"
  "<tr><td><a href=\"" ++ "/" ++ b.Name ++ "\">📦 " ++ b.Name ++ "</a></td><td>"
    ++ creationDate ++ "</td></tr>"

/-- `buckets.map(...).join("\n      ")`. -/
def bucketsRows (buckets : List BucketEntry) : String :=
  String.intercalate "\n      " (buckets.map bucketRow)

/-- The buckets-index page. -/
def bucketsIndexHtml (buckets : List BucketEntry) : String :=
  "<!DOCTYPE html>\n<html>\n<head>\n  <meta charset=\"UTF-8\">\n  <meta name=\"viewport\" content=\"width=device-width, initial-scale=1.0\">\n  <title>S3 Buckets</title>\n  <style>\n    body \x7b font-family: system-ui, -apple-system, sans-serif; margin: 2rem; \x7d\n    h1 \x7b font-size: 1.5rem; margin-bottom: 1.5rem; \x7d\n    table \x7b border-collapse: collapse; width: 100%; max-width: 900px; \x7d\n    th \x7b text-align: left; padding: 0.5rem; border-bottom: 2px solid #ddd; background: #f5f5f5; \x7d\n    td \x7b padding: 0.5rem; border-bottom: 1px solid #eee; \x7d\n    td:first-child \x7b width: 70%; \x7d\n    td:last-child \x7b text-align: right; color: #666; \x7d\n    a \x7b color: #0066cc; text-decoration: none; \x7d\n    a:hover \x7b text-decoration: underline; \x7d\n  </style>\n</head>\n<body>\n  <h1>S3 Buckets</h1>\n  <table>\n    <thead>\n      <tr><th>Name</th><th>Created</th></tr>\n    </thead>\n    <tbody>\n      "
  ++ bucketsRows buckets
  ++ "\n    </tbody>\n  </table>\n</body>\n</html>"

/-- Embedding of the `app.get("/")` handler: list buckets
(`result.Buckets || []`), render the page (200), or catch the thrown
error, log it, and send 500 "Error listing buckets". -/
def appGetRoot (m : S3Model) : HandlerResult :=
  match m.listBucketsRaw with
  | .error e => ⟨{ emptyResponse with status := 500, body := .text "Error listing buckets" }, some e⟩
  | .ok bucketsOpt =>
    ⟨{ emptyResponse with
        contentType := some "text/html; charset=utf-8",
        body := .text (bucketsIndexHtml (bucketsOpt.getD [])) }, none⟩

/-! ## The catch-all route `app.get(/.*/)` (server.js lines 164–218) -/

/-- The inner `catch (err)` (server.js lines 196–213) with `base` the
response as built so far: a not-found error triggers the directory
fallback (listing failure propagates to the outer catch as 500); any
other error is rethrown to the outer catch (500, logged). -/
def innerCatch (m : S3Model) (bucket key reqPath : String) (base : Response)
    (e : S3Error) : HandlerResult :=
  if isNotFoundErr e then
    let pfx := if jsEndsWith key "/" then key else key ++ "/"
    match listS3Objects m bucket pfx with
    | .error e2 =>
      ⟨{ base with status := 500, body := .text "Error fetching from S3" }, some e2⟩
    | .ok (folders, files) =>
      if folders.length > 0 || files.length > 0 then
        ⟨{ base with
            status := 200,
            contentType := some "text/html; charset=utf-8",
            body := .text (generateIndexHtml bucket pfx folders files
              (if jsEndsWith reqPath "/" then reqPath else reqPath ++ "/")) }, none⟩
      else
        ⟨{ base with status := 404, body := .text "Not found" }, none⟩
  else
    ⟨{ base with status := 500, body := .text "Error fetching from S3" }, some e⟩

/-- The object branch (server.js lines 182–213): `HeadObject`, content
headers from metadata with truthiness fallbacks, then `GetObject` and
piping; errors of either `send` go to the inner catch. -/
def handleObject (m : S3Model) (bucket key reqPath : String) : HandlerResult :=
  match m.headObject bucket key with
  | .ok head =>
    let contentType := jsOrStr head.contentType
      (jsOrStr (m.mimeLookup key) "application/octet-stream")
    let base : Response :=
      { emptyResponse with
        contentType := some contentType,
        cacheControl := if jsTruthy head.cacheControl then head.cacheControl else none,
        etag := if jsTruthy head.etag then head.etag else none }
    match m.getObject bucket key with
    | .ok _ => ⟨{ base with body := .objectStream }, none⟩
    | .error e => innerCatch m bucket key reqPath base e
  | .error e => innerCatch m bucket key reqPath emptyResponse e

/-- Embedding of the `app.get(/.*/)` handler: parse the path; no bucket
gives 400; an empty key or a key with a trailing slash is served as a
directory listing; otherwise the object branch runs. -/
def appGetAny (m : S3Model) (reqPath : String) : HandlerResult :=
  let pr := parseBucketAndKey reqPath
  match pr.bucket with
  | none =>
    ⟨{ emptyResponse with status := 400, body := .text "Bad path. Use /<bucket>/<key...>" }, none⟩
  | some bucket =>
    let key := pr.key.getD ""
    if key = "" || jsEndsWith key "/" then
      match listS3Objects m bucket key with
      | .error e =>
        ⟨{ emptyResponse with status := 500, body := .text "Error fetching from S3" }, some e⟩
      | .ok (folders, files) =>
        ⟨{ emptyResponse with
            contentType := some "text/html; charset=utf-8",
            body := .text (generateIndexHtml bucket key folders files reqPath) }, none⟩
    else
      handleObject m bucket key reqPath

/-! ## Shape of joined segments -/

theorem joinSlash_ne_nil {ls : List (List Char)} (hne : ls ≠ [])
    (h : ∀ s ∈ ls, s ≠ []) : joinSlash ls ≠ [] := by
  cases ls with
  | nil => exact absurd rfl hne
  | cons s ss =>
    cases ss with
    | nil => exact h s (by simp)
    | cons t ts =>
      have : joinSlash (s :: t :: ts) = s ++ '/' :: joinSlash (t :: ts) := rfl
      simp [this]

theorem joinSlash_head?_ne_slash {ls : List (List Char)}
    (h : ∀ s ∈ ls, s ≠ [] ∧ '/' ∉ s) : (joinSlash ls).head? ≠ some '/' := by
  cases ls with
  | nil => simp [joinSlash]
  | cons s ss =>
    have hs := h s (by simp)
    have hhead : (joinSlash (s :: ss)).head? = s.head? := by
      cases ss with
      | nil => rfl
      | cons t ts =>
        have : joinSlash (s :: t :: ts) = s ++ '/' :: joinSlash (t :: ts) := rfl
        rw [this, List.head?_append_of_ne_nil _ hs.1]
    rw [hhead]
    intro hc
    exact hs.2 (List.mem_of_mem_head? (by rw [hc]; rfl))

theorem joinSlash_getLast?_ne_slash {ls : List (List Char)}
    (h : ∀ s ∈ ls, s ≠ [] ∧ '/' ∉ s) : (joinSlash ls).getLast? ≠ some '/' := by
  induction ls with
  | nil => simp [joinSlash]
  | cons s ss ih =>
    cases ss with
    | nil =>
      have hs := h s (by simp)
      show s.getLast? ≠ some '/'
      intro hc
      exact hs.2 (List.mem_of_mem_getLast? (by rw [hc]; rfl))
    | cons t ts =>
      have hrest : ∀ u ∈ t :: ts, u ≠ [] ∧ '/' ∉ u := fun u hu => h u (by simp [hu])
      have hjoin : joinSlash (t :: ts) ≠ [] :=
        joinSlash_ne_nil (by simp) (fun u hu => (hrest u hu).1)
      have : joinSlash (s :: t :: ts) = s ++ '/' :: joinSlash (t :: ts) := rfl
      rw [this, List.getLast?_append_of_ne_nil _ (by simp)]
      cases hj : joinSlash (t :: ts) with
      | nil => exact absurd hj hjoin
      | cons c cs =>
        rw [List.getLast?_cons_cons]
        rw [← hj]
        exact ih hrest

theorem chain'_of_no_slash {s : List Char} (h : '/' ∉ s) :
    s.Chain' (fun a c => ¬(a = '/' ∧ c = '/')) := by
  induction s with
  | nil => simp
  | cons a s ih =>
    simp at h
    rw [List.chain'_cons']
    exact ⟨fun y _ hc => h.1 hc.1.symm, ih h.2⟩

theorem joinSlash_chain' {ls : List (List Char)}
    (h : ∀ s ∈ ls, s ≠ [] ∧ '/' ∉ s) :
    (joinSlash ls).Chain' (fun a c => ¬(a = '/' ∧ c = '/')) := by
  induction ls with
  | nil => simp [joinSlash]
  | cons s ss ih =>
    have hs := h s (by simp)
    have hchain : s.Chain' (fun a c => ¬(a = '/' ∧ c = '/')) := chain'_of_no_slash hs.2
    cases ss with
    | nil => exact hchain
    | cons t ts =>
      have hrest : ∀ u ∈ t :: ts, u ≠ [] ∧ '/' ∉ u := fun u hu => h u (by simp [hu])
      have : joinSlash (s :: t :: ts) = s ++ '/' :: joinSlash (t :: ts) := rfl
      rw [this, List.chain'_append]
      refine ⟨hchain, ?_, ?_⟩
      · rw [List.chain'_cons']
        refine ⟨?_, ih hrest⟩
        intro y hy hcon
        exact joinSlash_head?_ne_slash hrest (by rw [hy, hcon.2])
      · intro x hx y hy hcon
        exact hs.2 (hcon.1 ▸ List.mem_of_mem_getLast? hx)

/-! ## Inversion of a successful parse -/

theorem parse_some_inv {p b k : String} (h : parseBucketAndKey p = ⟨some b, some k⟩) :
    ∃ rest, segsL p.data = b.data :: rest ∧ k.data = joinSlash rest ∧
      ∀ s ∈ b.data :: rest, s ≠ [] ∧ '/' ∉ s := by
  rw [parseBucketAndKey_eq_parseOfSegs] at h
  unfold parseOfSegs at h
  cases hseg : segsL p.data with
  | nil =>
    rw [hseg] at h
    exact absurd h (by simp)
  | cons b0 rest =>
    rw [hseg] at h
    simp only [ParseResult.mk.injEq, Option.some.injEq] at h
    obtain ⟨hb, hk⟩ := h
    have hbd : b.data = b0 := by rw [← hb]
    have hkd : k.data = joinSlash rest := by rw [← hk]
    refine ⟨rest, ?_, hkd, ?_⟩
    · rw [hbd]
    · intro s hs
      rw [hbd] at hs
      exact mem_segsL (show s ∈ segsL p.data by rw [hseg]; exact hs)

/-- C3: `parseBucketAndKey` strips leading slashes, splits on `"/"` and
discards empty segments; no segment gives `{bucket: null, key: null}`,
otherwise the bucket is the first segment and the key is the rest
rejoined with `"/"` (the empty string when none remain).  The function
is a total Lean function, so purity/totality hold by construction. -/
theorem parseBucketAndKey_contract (p : String) :
    parseBucketAndKey p =
      match (splitSlash p.data).filter (fun s => !s.isEmpty) with
      | [] => ⟨none, none⟩
      | b :: rest => ⟨some (String.mk b), some (String.mk (joinSlash rest))⟩ := by
  rw [parseBucketAndKey_eq_parseOfSegs]
  rfl

/-- C7: parsing is invariant under adding or removing leading, trailing
and duplicate slashes, and re-parsing the normalized `/<bucket>/<key>`
form of a successfully parsed pair yields the same pair. -/
theorem parse_slash_normalization :
    (∀ p : String, parseBucketAndKey ("/" ++ p) = parseBucketAndKey p) ∧
    (∀ p : String, parseBucketAndKey (p ++ "/") = parseBucketAndKey p) ∧
    (∀ p q : String, parseBucketAndKey (p ++ "//" ++ q) = parseBucketAndKey (p ++ "/" ++ q)) ∧
    (∀ p b k : String, parseBucketAndKey p = ⟨some b, some k⟩ →
      parseBucketAndKey ("/" ++ b ++ "/" ++ k) = ⟨some b, some k⟩) := by
  refine ⟨?_, ?_, ?_, ?_⟩
  · intro p
    rw [parseBucketAndKey_eq_parseOfSegs, parseBucketAndKey_eq_parseOfSegs]
    unfold parseOfSegs
    have hd : ("/" ++ p).data = '/' :: p.data := by simp [String.data_append]
    rw [hd, segsL_cons_slash]
  · intro p
    rw [parseBucketAndKey_eq_parseOfSegs, parseBucketAndKey_eq_parseOfSegs]
    unfold parseOfSegs
    have hd : (p ++ "/").data = p.data ++ ['/'] := by simp [String.data_append]
    rw [hd, segsL_append_slash_nil]
  · intro p q
    rw [parseBucketAndKey_eq_parseOfSegs, parseBucketAndKey_eq_parseOfSegs]
    unfold parseOfSegs
    have h1 : (p ++ "//" ++ q).data = p.data ++ '/' :: ('/' :: q.data) := by
      simp [String.data_append]
    have h2 : (p ++ "/" ++ q).data = p.data ++ '/' :: q.data := by
      simp [String.data_append]
    rw [h1, h2, segsL_append_slash, segsL_append_slash, segsL_cons_slash]
  · intro p b k h
    obtain ⟨rest, hseg, hk, hmem⟩ := parse_some_inv h
    have hb := hmem b.data (by simp)
    have hrest : ∀ s ∈ rest, s ≠ [] ∧ '/' ∉ s := fun s hs => hmem s (by simp [hs])
    rw [parseBucketAndKey_eq_parseOfSegs]
    unfold parseOfSegs
    have hd : ("/" ++ b ++ "/" ++ k).data = '/' :: (b.data ++ '/' :: k.data) := by
      simp [String.data_append]
    rw [hd, segsL_cons_slash, segsL_append_slash, segsL_of_not_slash hb.1 hb.2, hk,
      segsL_joinSlash hrest]
    show (⟨some (String.mk b.data), some (String.mk (joinSlash rest))⟩ : ParseResult)
      = ⟨some b, some k⟩
    rw [← hk]

/-- C9: a successfully parsed key is a `/`-join of non-empty segments —
it never starts or ends with `'/'` and never has two consecutive
slashes; hence the directory test `!key || key.endsWith("/")` of the
catch-all route holds exactly when the key is empty, and any path with a
non-empty key (even one written with a trailing slash, like `/b/dir/`)
is resolved object-first via `handleObject`. -/
theorem parsed_key_normalized :
    ∀ p b k : String, parseBucketAndKey p = ⟨some b, some k⟩ →
      (k.data.head? ≠ some '/' ∧ k.data.getLast? ≠ some '/' ∧
        List.Chain' (fun a c => ¬(a = '/' ∧ c = '/')) k.data ∧
        jsEndsWith k "/" = false) ∧
      ((k = "" ∨ jsEndsWith k "/" = true) ↔ k = "") ∧
      (k ≠ "" → ∀ m : S3Model, appGetAny m p = handleObject m b k p) := by
  intro p b k h
  obtain ⟨rest, hseg, hk, hmem⟩ := parse_some_inv h
  have hrest : ∀ s ∈ rest, s ≠ [] ∧ '/' ∉ s := fun s hs => hmem s (by simp [hs])
  have hlast : k.data.getLast? ≠ some '/' := by
    rw [hk]; exact joinSlash_getLast?_ne_slash hrest
  have hends : jsEndsWith k "/" = false := by
    unfold jsEndsWith
    cases hsuf : List.isSuffixOf ("/".data) k.data with
    | false => rfl
    | true =>
      exfalso
      have : ("/".data) <:+ k.data := List.isSuffixOf_iff_suffix.mp hsuf
      obtain ⟨t, ht⟩ := this
      apply hlast
      rw [← ht, List.getLast?_append_of_ne_nil _ (by simp)]
      rfl
  refine ⟨⟨?_, hlast, ?_, hends⟩, ?_, ?_⟩
  · rw [hk]; exact joinSlash_head?_ne_slash hrest
  · rw [hk]; exact joinSlash_chain' hrest
  · rw [hends]; simp
  · intro hne m
    have hkey : ((k = "") = False) := by simp [hne]
    simp [appGetAny, h, hkey, hends]

/-! ## `formatBytes` facts -/

theorem formatBytes_of_ne_zero {n : Nat} (hn : n ≠ 0) :
    formatBytes n =
      renderHundredths (jsRound100 n (1024 ^ Nat.log 1024 n)) ++ " "
        ++ sizesArr.getD (Nat.log 1024 n) "undefined" := by
  simp [formatBytes, hn]

/-- C8: the byte formatter's concrete contract: `0 B` special case, base
1024, two-decimal rounding (`1024 ↦ "1 KB"`, `1536 ↦ "1.5 KB"`). -/
theorem formatBytes_values :
    formatBytes 0 = "0 B" ∧ formatBytes 1024 = "1 KB" ∧ formatBytes 1536 = "1.5 KB" := by
  have h1 : Nat.log 1024 1024 = 1 :=
    Nat.log_eq_of_pow_le_of_lt_pow (by norm_num) (by norm_num)
  have h2 : Nat.log 1024 1536 = 1 :=
    Nat.log_eq_of_pow_le_of_lt_pow (by norm_num) (by norm_num)
  refine ⟨rfl, ?_, ?_⟩
  · rw [formatBytes_of_ne_zero (by norm_num), h1]
    decide
  · rw [formatBytes_of_ne_zero (by norm_num), h2]
    decide

/-- C10: below `1024^4` (and at the special case 0) the rendered size
ends in one of the four valid units; from `1024^4` on, the computed unit
index is at least 4, past the end of the `sizes` array, so the lookup
falls back to JS `undefined` and no valid unit ends the string. -/
theorem formatBytes_unit_range :
    (∀ n : Nat, n < 1024 ^ 4 → ∃ u ∈ sizesArr, ∃ s, formatBytes n = s ++ " " ++ u) ∧
    (∀ n : Nat, 1024 ^ 4 ≤ n →
      4 ≤ Nat.log 1024 n ∧
      sizesArr.getD (Nat.log 1024 n) "undefined" = "undefined" ∧
      (∃ s, formatBytes n = s ++ " undefined") ∧
      ∀ u ∈ sizesArr, ∀ t, formatBytes n ≠ t ++ " " ++ u) := by
  constructor
  · intro n hn
    by_cases hn0 : n = 0
    · exact ⟨"B", by decide, "0", by rw [hn0]; decide⟩
    · have hlog : Nat.log 1024 n < 4 := by
        by_contra hc
        rw [Nat.not_lt, ← Nat.pow_le_iff_le_log (by norm_num) hn0] at hc
        omega
      refine ⟨sizesArr.getD (Nat.log 1024 n) "undefined", ?_,
        renderHundredths (jsRound100 n (1024 ^ Nat.log 1024 n)),
        formatBytes_of_ne_zero hn0⟩
      interval_cases h : Nat.log 1024 n <;> decide
  · intro n hn
    have hn0 : n ≠ 0 := by
      have : (0:Nat) < 1024 ^ 4 := by norm_num
      omega
    have hlog : 4 ≤ Nat.log 1024 n := by
      rw [← Nat.pow_le_iff_le_log (by norm_num) hn0]
      exact hn
    have hgetD : sizesArr.getD (Nat.log 1024 n) "undefined" = "undefined" :=
      List.getD_eq_default _ _ (by simpa [sizesArr] using hlog)
    have hform : formatBytes n =
        renderHundredths (jsRound100 n (1024 ^ Nat.log 1024 n)) ++ " undefined" := by
      rw [formatBytes_of_ne_zero hn0, hgetD]
      rw [String.append_assoc]
      have hs : (" " ++ "undefined" : String) = " undefined" := by decide
      rw [hs]
    refine ⟨hlog, hgetD, ⟨_, hform⟩, ?_⟩
    intro u hu t heq
    have hL : (formatBytes n).data.getLast? = some 'd' := by
      rw [hform, String.data_append,
        List.getLast?_append_of_ne_nil _ (show (" undefined" : String).data ≠ [] by decide)]
      decide
    have hR : (formatBytes n).data.getLast? = u.data.getLast? := by
      rw [heq, String.data_append]
      refine List.getLast?_append_of_ne_nil _ ?_
      fin_cases hu <;> decide
    rw [hL] at hR
    fin_cases hu <;> simp at hR

/-! ## Routing helpers for the catch-all route -/

theorem appGetAny_object_branch (m : S3Model) {p b k : String}
    (hp : parseBucketAndKey p = ⟨some b, some k⟩)
    (hk : k ≠ "") (hks : jsEndsWith k "/" = false) :
    appGetAny m p = handleObject m b k p := by
  have hkey : ((k = "") = False) := by simp [hk]
  simp [appGetAny, hp, hkey, hks]

/-- C1: with a present bucket and a non-empty key without trailing
slash, a not-found metadata check makes the handler list the route-level
fallback under `key + "/"`: a non-empty listing renders the index page
(200) against the slash-appended request path, an empty one yields
404 "Not found". -/
theorem object_notfound_directory_fallback (m : S3Model) (p b k : String)
    (hp : parseBucketAndKey p = ⟨some b, some k⟩)
    (hk : k ≠ "") (hks : jsEndsWith k "/" = false)
    (e : S3Error) (he : m.headObject b k = .error e) (hnf : isNotFoundErr e = true)
    (raw : ListRaw) (hl : m.listObjectsV2 b (k ++ "/") = .ok raw) :
    (raw.commonPrefixes.getD [] ≠ [] ∨ raw.contents.getD [] ≠ [] →
      appGetAny m p = ⟨{ emptyResponse with
        status := 200,
        contentType := some "text/html; charset=utf-8",
        body := .text (generateIndexHtml b (k ++ "/") (raw.commonPrefixes.getD [])
          (raw.contents.getD []) (if jsEndsWith p "/" then p else p ++ "/")) }, none⟩) ∧
    (raw.commonPrefixes.getD [] = [] ∧ raw.contents.getD [] = [] →
      appGetAny m p = ⟨{ emptyResponse with
        status := 404, body := .text "Not found" }, none⟩) := by
  have hroute := appGetAny_object_branch m hp hk hks
  constructor
  · intro hne
    rw [hroute]
    have hcond : ((raw.commonPrefixes.getD []).length > 0
        || (raw.contents.getD []).length > 0) = true := by
      rcases hne with h | h
      · simp [List.length_pos.mpr h]
      · simp [List.length_pos.mpr h]
    simp [handleObject, he, innerCatch, hnf, hks, listS3Objects, hl, hcond]
  · intro hemp
    rw [hroute]
    simp [handleObject, he, innerCatch, hnf, hks, listS3Objects, hl, hemp.1, hemp.2]

/-- C2: with a present bucket and an empty key (or one with a trailing
slash), the route serves a directory listing for that prefix and, when
the listing call returns, responds 200 with the rendered page even if
the listing is empty. -/
theorem directory_listing_200 (m : S3Model) (p b k : String)
    (hp : parseBucketAndKey p = ⟨some b, some k⟩)
    (hdir : k = "" ∨ jsEndsWith k "/" = true)
    (raw : ListRaw) (hl : m.listObjectsV2 b k = .ok raw) :
    appGetAny m p = ⟨{ emptyResponse with
      contentType := some "text/html; charset=utf-8",
      body := .text (generateIndexHtml b k (raw.commonPrefixes.getD [])
        (raw.contents.getD []) p) }, none⟩ ∧
    (appGetAny m p).resp.status = 200 := by
  have hcond : (k = "" || jsEndsWith k "/") = true := by
    rcases hdir with h | h <;> simp [h]
  have heq : appGetAny m p = ⟨{ emptyResponse with
      contentType := some "text/html; charset=utf-8",
      body := .text (generateIndexHtml b k (raw.commonPrefixes.getD [])
        (raw.contents.getD []) p) }, none⟩ := by
    simp only [appGetAny, hp]
    rw [if_pos]
    · simp [listS3Objects, hl]
    · simpa using hcond
  refine ⟨heq, ?_⟩
  rw [heq]
  rfl


theorem jsOrStr_falsy {a : Option String} (h : jsTruthy a = false) (d : String) :
    jsOrStr a d = d := by
  cases a with
  | none => rfl
  | some s =>
    simp [jsTruthy] at h
    simp [jsOrStr, h]

/-- C4 (amended): when the metadata check and the subsequent body fetch
both succeed, the response is a 200 object stream whose `Content-Type`
is the metadata content-type when present and non-empty, else the
extension-based lookup when it yields a type, else
`application/octet-stream`; `Cache-Control` and `ETag` are set exactly
when the corresponding metadata field is present and non-empty (JS
truthiness). -/
theorem object_success_headers (m : S3Model) (p b k : String)
    (hp : parseBucketAndKey p = ⟨some b, some k⟩)
    (hk : k ≠ "") (hks : jsEndsWith k "/" = false)
    (h : HeadResult) (hh : m.headObject b k = .ok h) (hg : m.getObject b k = .ok ()) :
    appGetAny m p = ⟨{
      status := 200,
      contentType := some (jsOrStr h.contentType
        (jsOrStr (m.mimeLookup k) "application/octet-stream")),
      cacheControl := if jsTruthy h.cacheControl then h.cacheControl else none,
      etag := if jsTruthy h.etag then h.etag else none,
      body := .objectStream }, none⟩ ∧
    (∀ s, h.contentType = some s → s ≠ "" → (appGetAny m p).resp.contentType = some s) ∧
    (jsTruthy h.contentType = false → ∀ t, m.mimeLookup k = some t → t ≠ "" →
      (appGetAny m p).resp.contentType = some t) ∧
    (jsTruthy h.contentType = false → jsTruthy (m.mimeLookup k) = false →
      (appGetAny m p).resp.contentType = some "application/octet-stream") ∧
    ((appGetAny m p).resp.cacheControl = none ↔ jsTruthy h.cacheControl = false) ∧
    ((appGetAny m p).resp.etag = none ↔ jsTruthy h.etag = false) := by
  have heq : appGetAny m p = ⟨{
      status := 200,
      contentType := some (jsOrStr h.contentType
        (jsOrStr (m.mimeLookup k) "application/octet-stream")),
      cacheControl := if jsTruthy h.cacheControl then h.cacheControl else none,
      etag := if jsTruthy h.etag then h.etag else none,
      body := .objectStream }, none⟩ := by
    rw [appGetAny_object_branch m hp hk hks]
    simp [handleObject, hh, hg, emptyResponse]
  refine ⟨heq, ?_, ?_, ?_, ?_, ?_⟩
  · intro s hct hs
    rw [heq]
    simp [jsOrStr, hct, hs]
  · intro hctf t hmime ht
    rw [heq]
    show some (jsOrStr h.contentType (jsOrStr (m.mimeLookup k) "application/octet-stream"))
      = some t
    rw [jsOrStr_falsy hctf, hmime]
    simp [jsOrStr, ht]
  · intro hctf hmimef
    rw [heq]
    show some (jsOrStr h.contentType (jsOrStr (m.mimeLookup k) "application/octet-stream"))
      = some "application/octet-stream"
    rw [jsOrStr_falsy hctf, jsOrStr_falsy hmimef]
  · rw [heq]
    cases hcc : jsTruthy h.cacheControl with
    | false => simp
    | true =>
      cases hc : h.cacheControl with
      | none => rw [hc] at hcc; simp [jsTruthy] at hcc
      | some s => simp [hcc, hc]
  · rw [heq]
    cases he : jsTruthy h.etag with
    | false => simp
    | true =>
      cases he2 : h.etag with
      | none => rw [he2] at he; simp [jsTruthy] at he
      | some s => simp [he, he2]

/-- C5 (amended): a non-not-found failure of the metadata check, of the
body fetch, or of the fallback listing surfaces as a 500 response with
body "Error fetching from S3" (the code's literal message), with the
error logged server-side; the model makes a single attempt per remote
call. -/
theorem backend_failure_500 (m : S3Model) (p b k : String)
    (hp : parseBucketAndKey p = ⟨some b, some k⟩)
    (hk : k ≠ "") (hks : jsEndsWith k "/" = false) :
    (∀ e : S3Error, m.headObject b k = .error e → isNotFoundErr e = false →
      appGetAny m p = ⟨{ emptyResponse with
        status := 500, body := .text "Error fetching from S3" }, some e⟩) ∧
    (∀ (h : HeadResult) (e : S3Error), m.headObject b k = .ok h →
      m.getObject b k = .error e → isNotFoundErr e = false →
      (appGetAny m p).resp.status = 500 ∧
      (appGetAny m p).resp.body = .text "Error fetching from S3" ∧
      (appGetAny m p).logged = some e) ∧
    (∀ e e2 : S3Error, m.headObject b k = .error e → isNotFoundErr e = true →
      m.listObjectsV2 b (k ++ "/") = .error e2 →
      appGetAny m p = ⟨{ emptyResponse with
        status := 500, body := .text "Error fetching from S3" }, some e2⟩) := by
  have hroute := appGetAny_object_branch m hp hk hks
  refine ⟨?_, ?_, ?_⟩
  · intro e he hnf
    rw [hroute]
    simp [handleObject, he, innerCatch, hnf]
  · intro h e hh hg hnf
    rw [hroute]
    simp [handleObject, hh, hg, innerCatch, hnf]
  · intro e e2 he hnf hl
    rw [hroute]
    simp [handleObject, he, innerCatch, hnf, hks, listS3Objects, hl]

/-- C6: the root route lists all buckets and renders the index page with
status 200 — with zero accessible buckets the rows are empty rather than
an error — and a remote failure yields 500 "Error listing buckets" with
the error logged. -/
theorem root_route_contract :
    (∀ (m : S3Model) (e : S3Error), m.listBucketsRaw = .error e →
      appGetRoot m = ⟨{ emptyResponse with
        status := 500, body := .text "Error listing buckets" }, some e⟩) ∧
    (∀ (m : S3Model) (obs : Option (List BucketEntry)), m.listBucketsRaw = .ok obs →
      appGetRoot m = ⟨{ emptyResponse with
        contentType := some "text/html; charset=utf-8",
        body := .text (bucketsIndexHtml (obs.getD [])) }, none⟩ ∧
      (appGetRoot m).resp.status = 200) ∧
    bucketsRows [] = "" := by
  refine ⟨?_, ?_, rfl⟩
  · intro m e he
    simp [appGetRoot, he]
  · intro m obs hok
    have heq : appGetRoot m = ⟨{ emptyResponse with
        contentType := some "text/html; charset=utf-8",
        body := .text (bucketsIndexHtml (obs.getD [])) }, none⟩ := by
      simp [appGetRoot, hok]
    refine ⟨heq, ?_⟩
    rw [heq]
    rfl

/-! ## Concrete backends for witnesses and counterexamples -/

/-- A not-found error as the SDK reports it. -/
def errNotFound : S3Error := ⟨some 404, some "NotFound"⟩

/-- A non-404 remote failure (permission denial). -/
def errDenied : S3Error := ⟨some 403, some "AccessDenied"⟩

/-- Metadata with a present content-type, a present-but-empty
`CacheControl` and a present `ETag`. -/
def hd0 : HeadResult := ⟨some "text/plain", some "", some "etagv"⟩

/-- A backend with no buckets, empty listings, objects absent. -/
def baseModel : S3Model where
  listBucketsRaw := .ok (some [])
  listObjectsV2 := fun _ _ => .ok ⟨some [], some []⟩
  headObject := fun _ _ => .error errNotFound
  getObject := fun _ _ => .ok ()
  mimeLookup := fun _ => none

/-- Objects absent but one common-prefix entry under every listing. -/
def mC1 : S3Model :=
  { baseModel with listObjectsV2 := fun _ _ => .ok ⟨some [⟨"dir/sub/"⟩], some []⟩ }

/-- Every metadata check succeeds with `hd0`; body fetches succeed. -/
def mC4 : S3Model := { baseModel with headObject := fun _ _ => .ok hd0 }

/-- Metadata check succeeds but the body fetch fails with a non-404. -/
def mC4b : S3Model := { mC4 with getObject := fun _ _ => .error errDenied }

/-- Every metadata check fails with a non-404 error. -/
def mC5 : S3Model := { baseModel with headObject := fun _ _ => .error errDenied }

/-- Listing buckets fails. -/
def mRootErr : S3Model := { baseModel with listBucketsRaw := .error errDenied }

/-! ## Witnesses and counterexamples -/

/-- C1 witness: `/b/dir` with the object absent but a folder under
`dir/` renders the 200 listing page for the slash-appended path. -/
theorem C1_witness :
    appGetAny mC1 "/b/dir" = ⟨{ emptyResponse with
      status := 200,
      contentType := some "text/html; charset=utf-8",
      body := .text (generateIndexHtml "b" "dir/" [⟨"dir/sub/"⟩] [] "/b/dir/") }, none⟩ :=
  (object_notfound_directory_fallback mC1 "/b/dir" "b" "dir" (by decide) (by decide)
    (by decide) errNotFound rfl (by decide) ⟨some [⟨"dir/sub/"⟩], some []⟩ rfl).1
    (Or.inl (by decide))

/-- C2 witness: `/b` (empty key) with an empty listing still renders a
200 page. -/
theorem C2_witness :
    appGetAny baseModel "/b" = ⟨{ emptyResponse with
      contentType := some "text/html; charset=utf-8",
      body := .text (generateIndexHtml "b" "" [] [] "/b") }, none⟩ ∧
    (appGetAny baseModel "/b").resp.status = 200 :=
  directory_listing_200 baseModel "/b" "b" "" (by decide) (Or.inl rfl)
    ⟨some [], some []⟩ rfl

/-- C4 counterexample: with metadata `hd0` (a `CacheControl` field that
is present but empty) the code leaves the `Cache-Control` header unset,
so "set exactly when present" fails; and with a successful metadata
check followed by a failing body fetch the status is 500, not 200. -/
theorem C4_counterexample :
    mC4.headObject "b" "f.txt" = .ok hd0 ∧
    hd0.cacheControl.isSome = true ∧
    (appGetAny mC4 "/b/f.txt").resp.cacheControl = none ∧
    mC4b.headObject "b" "f.txt" = .ok hd0 ∧
    (appGetAny mC4b "/b/f.txt").resp.status = 500 := by
  refine ⟨rfl, rfl, ?_, rfl, ?_⟩ <;> decide

/-- C4 witness: the amended header contract at `mC4`. -/
theorem C4_witness :
    appGetAny mC4 "/b/f.txt" = ⟨{
      status := 200,
      contentType := some "text/plain",
      cacheControl := none,
      etag := some "etagv",
      body := .objectStream }, none⟩ :=
  (object_success_headers mC4 "/b/f.txt" "b" "f.txt" (by decide) (by decide) (by decide)
    hd0 rfl rfl).1

/-- C5 counterexample: a permission-denied metadata failure yields 500
with the literal body "Error fetching from S3", not the spec's "Error
fetching from object storage". -/
theorem C5_counterexample :
    (appGetAny mC5 "/b/k").resp.status = 500 ∧
    (appGetAny mC5 "/b/k").resp.body = .text "Error fetching from S3" ∧
    RespBody.text "Error fetching from S3" ≠ RespBody.text "Error fetching from object storage" := by
  decide

/-- C5 witness: the amended failure contract at `mC5`. -/
theorem C5_witness :
    appGetAny mC5 "/b/k" = ⟨{ emptyResponse with
      status := 500, body := .text "Error fetching from S3" }, some errDenied⟩ :=
  (backend_failure_500 mC5 "/b/k" "b" "k" (by decide) (by decide) (by decide)).1
    errDenied rfl (by decide)

/-- C6 witness: the root route at a failing backend and at one with zero
buckets. -/
theorem C6_witness :
    appGetRoot mRootErr = ⟨{ emptyResponse with
      status := 500, body := .text "Error listing buckets" }, some errDenied⟩ ∧
    (appGetRoot baseModel).resp.status = 200 :=
  ⟨root_route_contract.1 mRootErr errDenied rfl,
    (root_route_contract.2.1 baseModel (some []) rfl).2⟩

/-- C7 witness: re-parsing the normalized form of the parse of
`/b//k/x/` returns the same pair. -/
theorem C7_witness :
    parseBucketAndKey ("/" ++ "b" ++ "/" ++ "k/x") = ⟨some "b", some "k/x"⟩ :=
  parse_slash_normalization.2.2.2 "/b//k/x/" "b" "k/x" (by decide)

/-- C9 witness: `/b/dir/` (trailing slash, non-empty key) goes through
the object-first branch. -/
theorem C9_witness :
    appGetAny baseModel "/b/dir/" = handleObject baseModel "b" "dir" "/b/dir/" :=
  (parsed_key_normalized "/b/dir/" "b" "dir" (by decide)).2.2 (by decide) baseModel

/-- C10 witness: a valid unit below `1024^4`, and the `undefined` unit
at `1024^4`. -/
theorem C10_witness :
    (∃ u ∈ sizesArr, ∃ s, formatBytes 1536 = s ++ " " ++ u) ∧
    (4 ≤ Nat.log 1024 (1024 ^ 4) ∧
      sizesArr.getD (Nat.log 1024 (1024 ^ 4)) "undefined" = "undefined" ∧
      (∃ s, formatBytes (1024 ^ 4) = s ++ " undefined") ∧
      ∀ u ∈ sizesArr, ∀ t, formatBytes (1024 ^ 4) ≠ t ++ " " ++ u) :=
  ⟨formatBytes_unit_range.1 1536 (by norm_num),
    formatBytes_unit_range.2 (1024 ^ 4) (le_refl _)⟩
